import Mathlib

/-!
Verification of the session/cache/retrieval core of the news-article RAG
backend (`sessionManager.js`, `reg.js`, `server.js`).

The JavaScript code is shallowly embedded as follows:
* the Redis key-value store is a list of `(key, value, ttl)` entries,
  last write first; TTL expiry itself is not modelled (all statements are
  about the pre-expiry state);
* `JSON.stringify` / `JSON.parse` are modelled over an inductive `Json`
  type (numbers as `Int`: the claims under study never exercise
  fractional or exponent literals);
* fallible JavaScript code (thrown exceptions) is modelled with
  `Except JsErr`; stateful functions return the updated store alongside
  their `Except` result, so the store is observable even when a call
  throws;
* the external providers (Jina embeddings, Qdrant search, Gemini
  generation) are parameters: each chat turn receives the outcome the
  provider would produce.

All executable definitions use structural recursion (fuel where needed)
so that concrete runs reduce by `rfl`.
-/

/-- JavaScript error conditions surfaced by the embedded code. -/
inductive JsErr where
  /-- The `JSON.parse` failure (a `SyntaxError`). -/
  | syntaxError
  /-- The `.map` / `.push` on a value that does not support it. -/
  | typeError
  /-- an explicit `throw new Error(msg)`. -/
  | jsError (msg : String)
  /-- a transport / provider failure (axios or Qdrant client rejection). -/
  | provider (msg : String)
  /-- the 400 "query missing" early rejection of the chat route. -/
  | invalidRequest
deriving DecidableEq, Repr

/-- JSON values (JS numbers restricted to integers). -/
inductive Json where
  | null
  | bool (b : Bool)
  | num (n : Int)
  | str (s : String)
  | arr (xs : List Json)
  | obj (kvs : List (String × Json))
deriving Repr

/-- The decimal digit character for `n < 10`. -/
def digitChar (n : Nat) : Char := Char.ofNat (48 + n)

/-- Decimal digits of `n` accumulated onto `acc` (fuel-driven; `fuel ≥ n`
gives the standard decimal form). -/
def natToDecCore : Nat → Nat → List Char → List Char
  | 0, _, acc => acc
  | fuel+1, n, acc => if n = 0 then acc else natToDecCore fuel (n / 10) (digitChar (n % 10) :: acc)

/-- Decimal representation of a natural number, as JS `String(n)` prints it. -/
def natToDec (n : Nat) : List Char := if n = 0 then ['0'] else natToDecCore n n []

/-- Decimal representation as a `String`. -/
def natToDecS (n : Nat) : String := String.mk (natToDec n)

/-- Decimal representation of an integer, as JS prints it. -/
def intToDec (i : Int) : List Char :=
  if i < 0 then '-' :: natToDec i.natAbs else natToDec i.natAbs

/-- Lower-case hexadecimal digit character for `n < 16`. -/
def hexDigitChar (n : Nat) : Char :=
  if n < 10 then Char.ofNat (48 + n) else Char.ofNat (87 + n)

/-- The `JSON.stringify` escaping of one string character. -/
def escChar (c : Char) : List Char :=
  if c = '\x22' then ['\\', '\x22']
  else if c = '\\' then ['\\', '\\']
  else if c = '\n' then ['\\', 'n']
  else if c = '\t' then ['\\', 't']
  else if c = '\r' then ['\\', 'r']
  else if c = '\x08' then ['\\', 'b']
  else if c = '\x0c' then ['\\', 'f']
  else if c.toNat < 32 then
    '\\' :: 'u' :: '0' :: '0' :: hexDigitChar (c.toNat / 16) :: [hexDigitChar (c.toNat % 16)]
  else [c]

/-- The `JSON.stringify` escaping of a character list. -/
def escList : List Char → List Char
  | [] => []
  | c :: cs => escChar c ++ escList cs

mutual

/-- Characters of `JSON.stringify v` (no whitespace, insertion-order keys,
exactly as V8 prints the values our embedding can denote). -/
def Json.strf : Json → List Char
  | .null => 'n' :: 'u' :: 'l' :: ['l']
  | .bool true => 't' :: 'r' :: 'u' :: ['e']
  | .bool false => 'f' :: 'a' :: 'l' :: 's' :: ['e']
  | .num i => intToDec i
  | .str s => '\x22' :: (escList s.toList ++ ['\x22'])
  | .arr xs => '[' :: (Json.strfElems xs ++ [']'])
  | .obj kvs => '\x7b' :: (Json.strfMembers kvs ++ ['\x7d'])

/-- Comma-separated stringification of array elements. -/
def Json.strfElems : List Json → List Char
  | [] => []
  | [x] => Json.strf x
  | x :: y :: xs => Json.strf x ++ ',' :: Json.strfElems (y :: xs)

/-- Comma-separated stringification of object members. -/
def Json.strfMembers : List (String × Json) → List Char
  | [] => []
  | [(k, v)] => '\x22' :: (escList k.toList ++ '\x22' :: ':' :: Json.strf v)
  | (k, v) :: m :: kvs =>
      ('\x22' :: (escList k.toList ++ '\x22' :: ':' :: Json.strf v)) ++ ',' :: Json.strfMembers (m :: kvs)

end

/-- The `JSON.stringify` producing a `String`. -/
def Json.stringify (v : Json) : String := String.mk v.strf

/-- Is `c` a decimal digit? -/
def isDigitCh (c : Char) : Bool := 48 ≤ c.toNat && c.toNat ≤ 57

/-- Value of a hexadecimal digit character. -/
def hexVal (c : Char) : Option Nat :=
  if 48 ≤ c.toNat && c.toNat ≤ 57 then some (c.toNat - 48)
  else if 97 ≤ c.toNat && c.toNat ≤ 102 then some (c.toNat - 87)
  else if 65 ≤ c.toNat && c.toNat ≤ 70 then some (c.toNat - 55)
  else none

/-- Consume a run of decimal digits, accumulating their value. -/
def parseDigitsCore : List Char → Nat → Nat × List Char
  | [], acc => (acc, [])
  | c :: cs, acc =>
      if isDigitCh c then parseDigitsCore cs (acc * 10 + (c.toNat - 48)) else (acc, c :: cs)

/-- Parse a nonempty run of decimal digits. -/
def parseNatDec : List Char → Option (Nat × List Char)
  | [] => none
  | c :: cs => if isDigitCh c then some (parseDigitsCore cs (c.toNat - 48)) else none

/-- Parse one JSON string escape (the characters after a backslash). -/
def parseEsc : List Char → Option (Char × List Char)
  | [] => none
  | c :: cs =>
    if c = '\x22' then some ('\x22', cs)
    else if c = '\\' then some ('\\', cs)
    else if c = '/' then some ('/', cs)
    else if c = 'n' then some ('\n', cs)
    else if c = 't' then some ('\t', cs)
    else if c = 'r' then some ('\r', cs)
    else if c = 'b' then some ('\x08', cs)
    else if c = 'f' then some ('\x0c', cs)
    else if c = 'u' then
      match cs with
      | h1 :: h2 :: h3 :: h4 :: rest =>
        match hexVal h1, hexVal h2, hexVal h3, hexVal h4 with
        | some a, some b, some c2, some d =>
            some (Char.ofNat (a * 4096 + b * 256 + c2 * 16 + d), rest)
        | _, _, _, _ => none
      | _ => none
    else none

/-- Parse a JSON string body up to (and consuming) the closing quote.
`fuel ≥ produced characters + 1` suffices. -/
def parseStrBody : Nat → List Char → Option (List Char × List Char)
  | 0, _ => none
  | fuel+1, cs =>
    match cs with
    | [] => none
    | c :: cs' =>
      if c = '\x22' then some ([], cs')
      else if c = '\\' then
        match parseEsc cs' with
        | some (e, rest) =>
          match parseStrBody fuel rest with
          | some (s, r) => some (e :: s, r)
          | none => none
        | none => none
      else if c.toNat < 32 then none
      else
        match parseStrBody fuel cs' with
        | some (s, r) => some (c :: s, r)
        | none => none

mutual

/-- Parse one JSON value. `fuel ≥ input length + 1` suffices. -/
def parseVal : Nat → List Char → Option (Json × List Char)
  | 0, _ => none
  | fuel+1, cs =>
    match cs with
    | [] => none
    | c :: cs' =>
      if c = 'n' then
        match cs' with
        | 'u' :: 'l' :: 'l' :: r => some (.null, r)
        | _ => none
      else if c = 't' then
        match cs' with
        | 'r' :: 'u' :: 'e' :: r => some (.bool true, r)
        | _ => none
      else if c = 'f' then
        match cs' with
        | 'a' :: 'l' :: 's' :: 'e' :: r => some (.bool false, r)
        | _ => none
      else if c = '\x22' then
        match parseStrBody (fuel+1) cs' with
        | some (s, r) => some (.str (String.mk s), r)
        | none => none
      else if c = '[' then
        match cs' with
        | [] => none
        | c2 :: cs2 =>
          if c2 = ']' then some (.arr [], cs2)
          else
            match parseElems fuel (c2 :: cs2) with
            | some (xs, r) => some (.arr xs, r)
            | none => none
      else if c = '\x7b' then
        match cs' with
        | [] => none
        | c2 :: cs2 =>
          if c2 = '\x7d' then some (.obj [], cs2)
          else
            match parseMembers fuel (c2 :: cs2) with
            | some (kvs, r) => some (.obj kvs, r)
            | none => none
      else if c = '-' then
        match parseNatDec cs' with
        | some (n, r) => some (.num (-(n : Int)), r)
        | none => none
      else if isDigitCh c then
        some (.num ((parseDigitsCore cs' (c.toNat - 48)).1 : Int), (parseDigitsCore cs' (c.toNat - 48)).2)
      else none

/-- Parse the elements of a nonempty JSON array, consuming the closing `]`. -/
def parseElems : Nat → List Char → Option (List Json × List Char)
  | 0, _ => none
  | fuel+1, cs =>
    match parseVal fuel cs with
    | some (v, r) =>
      match r with
      | ',' :: r' =>
        match parseElems fuel r' with
        | some (xs, r'') => some (v :: xs, r'')
        | none => none
      | ']' :: r' => some ([v], r')
      | _ => none
    | none => none

/-- Parse the members of a nonempty JSON object, consuming the closing brace. -/
def parseMembers : Nat → List Char → Option (List (String × Json) × List Char)
  | 0, _ => none
  | fuel+1, cs =>
    match cs with
    | [] => none
    | c :: cs' =>
      if c = '\x22' then
        match parseStrBody (fuel+1) cs' with
        | some (k, r) =>
          match r with
          | ':' :: r' =>
            match parseVal fuel r' with
            | some (v, r'') =>
              match r'' with
              | ',' :: r3 =>
                match parseMembers fuel r3 with
                | some (kvs, r4) => some ((String.mk k, v) :: kvs, r4)
                | none => none
              | '\x7d' :: r3 => some ([(String.mk k, v)], r3)
              | _ => none
            | none => none
          | _ => none
        | none => none
      else none

end

/-- The `JSON.parse`: the whole input must be one JSON value. -/
def Json.parse (s : String) : Option Json :=
  match parseVal (s.length + 1) s.toList with
  | some (v, []) => some v
  | _ => none

/-! ## The key-value store (the Redis client of `sessionManager.js`)

A store is the list of live `(key, value, ttl)` entries, most recent
write first.  `set` replaces the previous entry for the key entirely
(value and TTL), as Redis `SET key val EX ttl` does. -/

/-- The key-value store state. -/
abbrev Store := List (String × String × Nat)

/-- The `client.get(key)`: the stored string, or `none` when the key is absent. -/
def storeGet (σ : Store) (k : String) : Option String :=
  match σ.find? (fun e => e.1 == k) with
  | some e => some e.2.1
  | none => none

/-- The TTL recorded with a key (observability of `EX ttl`). -/
def storeTTL (σ : Store) (k : String) : Option Nat :=
  match σ.find? (fun e => e.1 == k) with
  | some e => some e.2.2
  | none => none

/-- The `client.set(key, value, { EX: ttl })`: unconditional overwrite. -/
def storeSet (σ : Store) (k v : String) (ttl : Nat) : Store :=
  (k, v, ttl) :: σ.filter (fun e => !(e.1 == k))

/-- The `client.keys('*')`: all currently live keys. -/
def storeKeys (σ : Store) : List String := σ.map (fun e => e.1)

/-! ## JavaScript value helpers -/

/-- JS truthiness of a JSON value (`NaN` cannot arise in this model). -/
def jsTruthy : Json → Bool
  | .null => false
  | .bool b => b
  | .num n => n != 0
  | .str s => !s.isEmpty
  | .arr _ => true
  | .obj _ => true

/-- Truthiness of a possibly-`null`/`undefined` JS value. -/
def truthyOpt : Option Json → Bool
  | some j => jsTruthy j
  | none => false

/-- Does `pat` occur anywhere in `s` (JS `String.prototype.includes`)? -/
def strIncludes (s pat : String) : Bool :=
  s.toList.tails.any (fun t => pat.toList.isPrefixOf t)

/-- Does `s` start with `pat`? -/
def strStartsWith (s pat : String) : Bool := pat.toList.isPrefixOf s.toList

/-- JS whitespace recognised by `String.prototype.trim` (ASCII part;
the inputs of interest contain only ASCII whitespace). -/
def isWsCh (c : Char) : Bool :=
  [' ', '\t', '\n', '\r', '\x0b', '\x0c'].contains c

/-- The `text.trim()`. -/
def jsTrim (s : String) : String :=
  String.mk (((s.toList.dropWhile isWsCh).reverse.dropWhile isWsCh).reverse)

/-! ## `sessionManager.js` -/

/-- The `SESSION_TTL` (default 1800 seconds). -/
def SESSION_TTL : Nat := 1800

/-- The `createSession(sessionId, ttl)`: `sessionId || uuidv4()` picks the
caller-supplied id when it is a nonempty string, otherwise the fresh
random token `fresh`; then the history is unconditionally reset to `[]`
with the given TTL.  Returns the updated store and the effective id. -/
def createSession (σ : Store) (sessionId fresh : String) (ttl : Nat) : Store × String :=
  (storeSet σ (if sessionId = "" then fresh else sessionId) (Json.stringify (.arr [])) ttl,
   if sessionId = "" then fresh else sessionId)

/-- The `getSession(sessionId)`: `data ? JSON.parse(data) : null`.  `.ok none`
models the JS `null` (key absent, or stored value the empty string); a
`JSON.parse` failure throws. -/
def getSession (σ : Store) (sessionId : String) : Except JsErr (Option Json) :=
  match storeGet σ sessionId with
  | none => .ok none
  | some data =>
    if data = "" then .ok none
    else
      match Json.parse data with
      | some j => .ok (some j)
      | none => .error .syntaxError

/-- The `appendToSession(sessionId, entry, ttl)`: read-modify-write; a falsy
or missing history is replaced by `[]`, `entry` is pushed (a truthy
non-array history would make `.push` throw), and the new array is stored
with a refreshed TTL and returned. -/
def appendToSession (σ : Store) (sessionId : String) (entry : Json) (ttl : Nat) :
    Store × Except JsErr Json :=
  match getSession σ sessionId with
  | .error e => (σ, .error e)
  | .ok h =>
    match (match h with
      | some j => if jsTruthy j then j else .arr []
      | none => Json.arr []) with
    | .arr xs =>
      (storeSet σ sessionId (Json.stringify (.arr (xs ++ [entry]))) ttl,
        .ok (.arr (xs ++ [entry])))
    | _ => (σ, .error .typeError)

/-- The `saveSession(sessionId, history, ttl)`: unconditional overwrite. -/
def saveSession (σ : Store) (sessionId : String) (history : Json) (ttl : Nat) : Store × Json :=
  (storeSet σ sessionId (Json.stringify history) ttl, history)

/-- The `clearSession(sessionId, ttl)`: reset to the empty array. -/
def clearSession (σ : Store) (sessionId : String) (ttl : Nat) : Store × Json :=
  (storeSet σ sessionId (Json.stringify (.arr [])) ttl, .arr [])

/-- The `cacheSet(key, value, ttl)`: strings are stored verbatim, everything
else is `JSON.stringify`-ed. -/
def cacheSet (σ : Store) (key : String) (value : Json) (ttl : Nat) : Store :=
  storeSet σ key (match value with | .str s => s | _ => Json.stringify value) ttl

/-- The `cacheGet(key)`: `v ? JSON.parse(v) : null`. -/
def cacheGet (σ : Store) (key : String) : Except JsErr (Option Json) :=
  match storeGet σ key with
  | none => .ok none
  | some v =>
    if v = "" then .ok none
    else
      match Json.parse v with
      | some j => .ok (some j)
      | none => .error .syntaxError

/-- The `getAllKeys()`: every live key that does not *contain* `embed:` or
`retrieve:` (the source uses `key.includes`, not a prefix test) and has
length at least 5. -/
def getAllKeys (σ : Store) : List String :=
  (storeKeys σ).filter (fun key =>
    !(strIncludes key ("embed:") || strIncludes key ("retrieve:")) && decide (5 ≤ key.length))

/-! ## `reg.js` -/

/-- Hexadecimal digits of `n` accumulated onto `acc` (`fuel ≥ n` suffices). -/
def toHexCore : Nat → Nat → List Char → List Char
  | 0, _, acc => acc
  | fuel+1, n, acc => if n = 0 then acc else toHexCore fuel (n / 16) (hexDigitChar (n % 16) :: acc)

/-- JS `(h >>> 0).toString(16)`. -/
def toHex (n : Nat) : List Char := if n = 0 then ['0'] else toHexCore n n []

/-- The `simpleHash(s)`: the 32-bit FNV-1a loop (`Math.imul` is multiplication
mod `2^32`), rendered in lowercase hex.  `charCodeAt` is modelled by the
code point, which coincides with it on the Basic Multilingual Plane. -/
def simpleHash (s : String) : String :=
  String.mk (toHex (s.toList.foldl
    (fun h c => ((h ^^^ c.toNat) * 16777619) % 4294967296) 2166136261))

/-- The embedding-cache key `embed:<simpleHash(text)>`. -/
def embedKey (text : String) : String := "embed:" ++ simpleHash text

/-- The retrieval-cache key `retrieve:<simpleHash(query)>:k<k>`. -/
def retrieveKey (query : String) (k : Nat) : String :=
  "retrieve:" ++ simpleHash query ++ ":k" ++ natToDecS k

/-- Outcome of `getEmbedding`: updated store, number of axios calls to the
embedding provider, number of cache reads, and the returned value
(`.ok none` is the early `return null`). -/
structure EmbedOut where
  store : Store
  providerCalls : Nat
  cacheReads : Nat
  result : Except JsErr (Option Json)
deriving Repr

/-- The `getEmbedding(text)`.  `embedResp` is the value the provider call
would yield: `.error` a transport failure, `.ok none` a response with no
`data[0].embedding`, `.ok (some emb)` the extracted embedding (a falsy
extracted value also triggers `throw new Error("No embedding returned")`). -/
def getEmbedding (σ : Store) (text : String) (embedResp : Except JsErr (Option Json)) : EmbedOut :=
  if text = "" ∨ jsTrim text = "" then ⟨σ, 0, 0, .ok none⟩
  else
    match cacheGet σ (embedKey text) with
    | .error e => ⟨σ, 0, 1, .error e⟩
    | .ok cached =>
      if truthyOpt cached then ⟨σ, 0, 1, .ok cached⟩
      else
        match embedResp with
        | .error e => ⟨σ, 1, 1, .error e⟩
        | .ok none => ⟨σ, 1, 1, .error (.jsError ("No embedding returned"))⟩
        | .ok (some emb) =>
          if jsTruthy emb then ⟨cacheSet σ (embedKey text) emb 86400, 1, 1, .ok (some emb)⟩
          else ⟨σ, 1, 1, .error (.jsError ("No embedding returned"))⟩

/-- One Qdrant search result (only its payload is consumed). -/
structure QHit where
  payload : Json
deriving Repr

/-- Outcome of `retrieveTopK`. -/
structure RetOut where
  store : Store
  providerCalls : Nat
  result : Except JsErr Json
deriving Repr

/-- The cache-miss path of `retrieveTopK`: embed the query, search the
index, cache the payload list for 300 seconds and return it. -/
def retrieveMiss (σ : Store) (query : String) (k : Nat)
    (embedResp : Except JsErr (Option Json)) (searchResp : Except JsErr (List QHit)) : RetOut :=
  match (getEmbedding σ query embedResp).result with
  | .error e =>
    ⟨(getEmbedding σ query embedResp).store, (getEmbedding σ query embedResp).providerCalls, .error e⟩
  | .ok _ =>
    match searchResp with
    | .error e =>
      ⟨(getEmbedding σ query embedResp).store, (getEmbedding σ query embedResp).providerCalls, .error e⟩
    | .ok hits =>
      ⟨cacheSet (getEmbedding σ query embedResp).store (retrieveKey query k)
          (Json.arr (hits.map QHit.payload)) 300,
        (getEmbedding σ query embedResp).providerCalls,
        .ok (Json.arr (hits.map QHit.payload))⟩

/-- The `retrieveTopK(query, k)`: cache-through on `retrieve:<hash>:k<k>`. -/
def retrieveTopK (σ : Store) (query : String) (k : Nat)
    (embedResp : Except JsErr (Option Json)) (searchResp : Except JsErr (List QHit)) : RetOut :=
  match cacheGet σ (retrieveKey query k) with
  | .error e => ⟨σ, 0, .error e⟩
  | .ok cached =>
    match cached with
    | some j =>
        if jsTruthy j then ⟨σ, 0, .ok j⟩
        else retrieveMiss σ query k embedResp searchResp
    | none => retrieveMiss σ query k embedResp searchResp

/-! ## Template rendering (`buildPromptWithHistory`) -/

mutual

/-- JS `String(v)` for the values our model can denote. -/
def jsToString : Json → String
  | .null => "null"
  | .bool true => "true"
  | .bool false => "false"
  | .num i => String.mk (intToDec i)
  | .str s => s
  | .arr xs => jsJoinArr xs
  | .obj _ => "[object Object]"

/-- The `Array.prototype.join(",")` as used by `String(array)`:
`null` elements render as the empty string. -/
def jsJoinArr : List Json → String
  | [] => ""
  | [.null] => ""
  | [x] => jsToString x
  | .null :: y :: xs => "," ++ jsJoinArr (y :: xs)
  | x :: y :: xs => jsToString x ++ "," ++ jsJoinArr (y :: xs)

end

/-- Last-binding lookup in an object member list (a JS object parsed from
JSON with duplicate keys keeps the last one). -/
def lookupLast : List (String × Json) → String → Option Json
  | [], _ => none
  | (k, v) :: kvs, f =>
    match lookupLast kvs f with
    | some w => some w
    | none => if k == f then some v else none

/-- JS property access `j.f`: throws on `null`, is `undefined` (`none`)
on primitives and arrays, and looks the field up on objects. -/
def jsAccess (j : Json) (f : String) : Except JsErr (Option Json) :=
  match j with
  | .null => .error .typeError
  | .obj kvs => .ok (lookupLast kvs f)
  | _ => .ok none

/-- Template interpolation of `j.f` (an `undefined` field renders as the
string `undefined`). -/
def renderField (j : Json) (f : String) : Except JsErr String :=
  match jsAccess j f with
  | .error e => .error e
  | .ok (some v) => .ok (jsToString v)
  | .ok none => .ok ("undefined")

/-- The `Q{i}: …\nA{i}: …` lines of the history block, 1-indexed from `i`. -/
def renderHistLines (i : Nat) : List Json → Except JsErr (List String)
  | [] => .ok []
  | h :: hs =>
    match renderField h ("query") with
    | .error e => .error e
    | .ok q =>
      match renderField h ("answer") with
      | .error e => .error e
      | .ok a =>
        match renderHistLines (i+1) hs with
        | .error e => .error e
        | .ok rest =>
          .ok (("Q" ++ natToDecS i ++ ": " ++ q ++ "\nA" ++ natToDecS i ++ ": " ++ a) :: rest)

/-- The `[Passage {i}]` blocks, 1-indexed from `i`. -/
def renderPassageBlocks (i : Nat) : List Json → Except JsErr (List String)
  | [] => .ok []
  | p :: ps =>
    match renderField p ("title") with
    | .error e => .error e
    | .ok t =>
      match renderField p ("content") with
      | .error e => .error e
      | .ok c =>
        match renderPassageBlocks (i+1) ps with
        | .error e => .error e
        | .ok rest =>
          .ok (("[Passage " ++ natToDecS i ++ "]\nTitle: " ++ t ++ "\nContent: " ++ c) :: rest)

/-- The fixed instruction block appended to every prompt. -/
def chatInstructions : String :=
  "\n\nInstructions:\n1) Use only the passages above and conversation history.\n2) Be concise and don\x27t invent facts.\n3) If answer is not in context, reply: \x22Information not available in the retrieved passages.\x22\n4) If user query is a general/basic message (e.g., greetings, small talk like \x27how are you\x27), reply politely in a conversational way.\n\nAnswer:"

/-- The `buildPromptWithHistory(history, query, passages)`.  `history` is
guarded by `|| []`; mapping over a truthy non-array (no `.map`) throws;
the history text renders first, then the passage context, exactly as the
template evaluates. -/
def buildPromptWithHistory (history : Json) (query : String) (passages : Json) :
    Except JsErr String :=
  match (if jsTruthy history then history else .arr []) with
  | .arr hs =>
    match renderHistLines 1 hs with
    | .error e => .error e
    | .ok hls =>
      match passages with
      | .arr ps =>
        match renderPassageBlocks 1 ps with
        | .error e => .error e
        | .ok pbs =>
          .ok ((if String.intercalate ("\n") hls = "" then ("")
                else ("Conversation so far:\n") ++ String.intercalate ("\n") hls ++ "\n\n") ++
            "Context:\n" ++ String.intercalate ("\n\n") pbs ++ "\n\nUser: " ++ query
              ++ chatInstructions)
      | _ => .error .typeError
  | _ => .error .typeError

/-! ## `askModel` and the chat route of `server.js` -/

/-- The `askModel(prompt)`.  `genResp` is the outcome of the axios call:
`.error` a rejection (logged and rethrown), `.ok (some t)` a response
whose first candidate text is `t`, `.ok none` a response with no text
candidate; the extracted text goes through `|| null`, so an empty-string
candidate also becomes `null`. -/
def askModel (_prompt : String) (genResp : Except JsErr (Option String)) :
    Except JsErr (Option String) :=
  match genResp with
  | .error e => .error e
  | .ok extracted =>
    .ok (match extracted with
      | some t => if t = "" then none else some t
      | none => none)

/-- The provider outcomes a chat turn can observe. -/
structure Providers where
  embedResp : Except JsErr (Option Json)
  searchResp : Except JsErr (List QHit)
  genResp : Except JsErr (Option String)

/-- Response body of a successful chat turn. -/
structure ChatResp where
  answer : Option String
  history : Json
deriving Repr

/-- Outcome of a chat turn: the store after the call, and either a
response or the error translated to a 4xx/5xx reply. -/
structure ChatOut where
  store : Store
  result : Except JsErr ChatResp
deriving Repr

/-- The `{ query, answer }` turn record appended to the session. -/
def mkTurn (query : String) (answer : Option String) : Json :=
  .obj [("query", .str query),
        ("answer", match answer with | some s => .str s | none => .null)]

/-- The `app.post("/sessions/:id/chat")`: reject an empty query, load the
history (`|| []`), retrieve top-k passages, build the prompt, ask the
model, and only then append `{query, answer}` to the session. -/
def chatTurn (σ : Store) (sessionId query : String) (k : Nat) (pr : Providers) : ChatOut :=
  if query = "" then ⟨σ, .error .invalidRequest⟩
  else
    match getSession σ sessionId with
    | .error e => ⟨σ, .error e⟩
    | .ok h =>
      match (retrieveTopK σ query k pr.embedResp pr.searchResp).result with
      | .error e => ⟨(retrieveTopK σ query k pr.embedResp pr.searchResp).store, .error e⟩
      | .ok passages =>
        match buildPromptWithHistory
            (match h with | some j => if jsTruthy j then j else .arr [] | none => Json.arr [])
            query passages with
        | .error e => ⟨(retrieveTopK σ query k pr.embedResp pr.searchResp).store, .error e⟩
        | .ok prompt =>
          match askModel prompt pr.genResp with
          | .error e => ⟨(retrieveTopK σ query k pr.embedResp pr.searchResp).store, .error e⟩
          | .ok answer =>
            match appendToSession (retrieveTopK σ query k pr.embedResp pr.searchResp).store
                sessionId (mkTurn query answer) SESSION_TTL with
            | (σ', .error e) => ⟨σ', .error e⟩
            | (σ', .ok newHist) => ⟨σ', .ok ⟨answer, newHist⟩⟩

/-! ## Decimal printing reads back -/

/-- Proof-side specification of the decimal digit list (most significant
digit first, empty for 0). -/
def natDigits : Nat → List Char
  | 0 => []
  | n+1 => natDigits ((n+1) / 10) ++ [digitChar ((n+1) % 10)]
decreasing_by exact Nat.div_lt_self (Nat.succ_pos n) (by omega)

theorem digitChar_digit : ∀ d, d < 10 → isDigitCh (digitChar d) = true := by decide

theorem digitChar_val : ∀ d, d < 10 → (digitChar d).toNat - 48 = d := by decide

theorem natToDecCore_eq : ∀ (fuel n : Nat) (acc : List Char), n ≤ fuel →
    natToDecCore fuel n acc = natDigits n ++ acc := by
  intro fuel
  induction fuel with
  | zero =>
    intro n acc h
    interval_cases n
    simp [natToDecCore, natDigits]
  | succ f ih =>
    intro n acc h
    rw [natToDecCore]
    by_cases hn : n = 0
    · subst hn; simp [natDigits]
    · rw [if_neg hn, ih (n / 10) _ (by omega)]
      obtain ⟨m, rfl⟩ : ∃ m, n = m + 1 := ⟨n - 1, by omega⟩
      rw [natDigits]
      simp [List.append_assoc]

theorem natDigits_digits : ∀ n, ∀ c ∈ natDigits n, isDigitCh c = true := by
  intro n
  induction n using Nat.strong_induction_on with
  | _ n ih =>
    match n with
    | 0 => simp [natDigits]
    | m+1 =>
      rw [natDigits]
      intro c hc
      rcases List.mem_append.1 hc with h | h
      · exact ih _ (Nat.div_lt_self (Nat.succ_pos m) (by omega)) c h
      · rw [List.mem_singleton] at h
        subst h
        exact digitChar_digit _ (Nat.mod_lt _ (by omega))

theorem foldl_natDigits : ∀ n acc,
    (natDigits n).foldl (fun a c => a * 10 + (c.toNat - 48)) acc
      = acc * 10 ^ (natDigits n).length + n := by
  intro n
  induction n using Nat.strong_induction_on with
  | _ n ih =>
    match n with
    | 0 => intro acc; simp [natDigits]
    | m+1 =>
      intro acc
      rw [natDigits, List.foldl_append,
        ih ((m+1) / 10) (Nat.div_lt_self (Nat.succ_pos m) (by omega)) acc]
      simp only [List.foldl, List.length_append, List.length_cons, List.length_nil]
      rw [digitChar_val _ (Nat.mod_lt _ (by omega))]
      calc (acc * 10 ^ (natDigits ((m+1) / 10)).length + (m+1) / 10) * 10 + (m+1) % 10
          = acc * 10 ^ ((natDigits ((m+1) / 10)).length + (0 + 1)) + (10 * ((m+1) / 10) + (m+1) % 10) := by
            ring
        _ = acc * 10 ^ ((natDigits ((m+1) / 10)).length + (0 + 1)) + (m+1) := by
            rw [Nat.div_add_mod]

theorem parseDigitsCore_append : ∀ (ds rest : List Char) (acc : Nat),
    (∀ c ∈ ds, isDigitCh c = true) →
    (∀ c, rest.head? = some c → isDigitCh c = false) →
    parseDigitsCore (ds ++ rest) acc
      = (ds.foldl (fun a c => a * 10 + (c.toNat - 48)) acc, rest) := by
  intro ds
  induction ds with
  | nil =>
    intro rest acc _ hrest
    match rest with
    | [] => rfl
    | c :: t => simp [parseDigitsCore, hrest c rfl]
  | cons c ds ih =>
    intro rest acc hds hrest
    simp only [List.cons_append, parseDigitsCore]
    rw [if_pos (hds c (List.mem_cons_self ..))]
    simp only [List.append_eq]
    rw [ih rest _ (fun x hx => hds x (List.mem_cons_of_mem _ hx)) hrest]
    rfl

theorem natToDec_eq_natDigits {n : Nat} (h : n ≠ 0) : natToDec n = natDigits n := by
  unfold natToDec
  rw [if_neg h, natToDecCore_eq n n [] le_rfl, List.append_nil]

theorem natDigits_ne_nil {n : Nat} (h : n ≠ 0) : natDigits n ≠ [] := by
  match n with
  | m+1 =>
    rw [natDigits]
    simp

/-- The decimal digits of `n`, followed by a non-digit remainder, parse
back to exactly `n`. -/
theorem parseDigits_natToDec (n : Nat) (rest : List Char)
    (hrest : ∀ c, rest.head? = some c → isDigitCh c = false) :
    ∃ c cs, natToDec n = c :: cs ∧ isDigitCh c = true ∧
      parseDigitsCore (cs ++ rest) (c.toNat - 48) = (n, rest) := by
  by_cases hn : n = 0
  · subst hn
    refine ⟨'0', [], rfl, rfl, ?_⟩
    rw [List.nil_append]
    have := parseDigitsCore_append [] rest 0 (by simp) hrest
    simpa using this
  · obtain ⟨c, cs, hcons⟩ := List.exists_cons_of_ne_nil (natDigits_ne_nil hn)
    have hdig : ∀ x ∈ natDigits n, isDigitCh x = true := natDigits_digits n
    refine ⟨c, cs, by rw [natToDec_eq_natDigits hn, hcons], hdig c (by rw [hcons]; exact List.mem_cons_self ..), ?_⟩
    rw [parseDigitsCore_append cs rest _ (fun x hx => hdig x (by rw [hcons]; exact List.mem_cons_of_mem _ hx)) hrest]
    have hf := foldl_natDigits n 0
    rw [hcons] at hf
    simp only [List.foldl, Nat.zero_mul, Nat.zero_add] at hf
    rw [hf]

/-- The function `parseNatDec` is a left inverse of `natToDec` before a non-digit. -/
theorem parseNatDec_append (n : Nat) (rest : List Char)
    (hrest : ∀ c, rest.head? = some c → isDigitCh c = false) :
    parseNatDec (natToDec n ++ rest) = some (n, rest) := by
  obtain ⟨c, cs, hcons, hdigc, hp⟩ := parseDigits_natToDec n rest hrest
  rw [hcons]
  simp [parseNatDec, hdigc, hp]

theorem natToDec_injective : Function.Injective natToDec := by
  intro a b h
  have ha := parseNatDec_append a [] (by intro c hc; simp at hc)
  have hb := parseNatDec_append b [] (by intro c hc; simp at hc)
  rw [List.append_nil] at ha hb
  rw [h, hb] at ha
  simpa using ha.symm

theorem natToDecS_injective : Function.Injective natToDecS := by
  intro a b h
  apply natToDec_injective
  have hd := congrArg String.data h
  simpa [natToDecS] using hd

/-! ## String escaping reads back -/

theorem hexVal_hexDigitChar : ∀ m, m < 16 → hexVal (hexDigitChar m) = some m := by decide

theorem length_escList_ge : ∀ cs : List Char, cs.length ≤ (escList cs).length := by
  intro cs
  induction cs with
  | nil => simp [escList]
  | cons c cs ih =>
    simp only [escList, List.length_append, List.length_cons]
    have h1 : 1 ≤ (escChar c).length := by
      unfold escChar
      split_ifs <;> simp
    omega

/-- Each escaped character either stands for itself (a plain character
at or above 0x20 that is not a quote or backslash) or is a backslash
escape that `parseEsc` reads back. -/
theorem parseEsc_escChar (c : Char) (rest : List Char) :
    (escChar c = [c] ∧ c ≠ '\x22' ∧ c ≠ '\\' ∧ 32 ≤ c.toNat) ∨
    (∃ tail, escChar c = '\\' :: tail ∧ parseEsc (tail ++ rest) = some (c, rest)) := by
  unfold escChar
  split_ifs with h1 h2 h3 h4 h5 h6 h7 h8
  · subst h1; right; exact ⟨['\x22'], rfl, rfl⟩
  · subst h2; right; exact ⟨['\\'], rfl, rfl⟩
  · subst h3; right; exact ⟨['n'], rfl, rfl⟩
  · subst h4; right; exact ⟨['t'], rfl, rfl⟩
  · subst h5; right; exact ⟨['r'], rfl, rfl⟩
  · subst h6; right; exact ⟨['b'], rfl, rfl⟩
  · subst h7; right; exact ⟨['f'], rfl, rfl⟩
  · right
    refine ⟨'u' :: '0' :: '0' :: hexDigitChar (c.toNat / 16) :: [hexDigitChar (c.toNat % 16)], rfl, ?_⟩
    have hv1 : hexVal (hexDigitChar (c.toNat / 16)) = some (c.toNat / 16) :=
      hexVal_hexDigitChar _ (by omega)
    have hv2 : hexVal (hexDigitChar (c.toNat % 16)) = some (c.toNat % 16) :=
      hexVal_hexDigitChar _ (by omega)
    have harith : 0 * 4096 + 0 * 256 + c.toNat / 16 * 16 + c.toNat % 16 = c.toNat := by omega
    simp only [List.cons_append, List.nil_append, parseEsc, hv1, hv2]
    simp only [show (('u' : Char) = '\x22') = False from by decide,
      show (('u' : Char) = '\\') = False from by decide,
      show (('u' : Char) = '/') = False from by decide,
      show (('u' : Char) = 'n') = False from by decide,
      show (('u' : Char) = 't') = False from by decide,
      show (('u' : Char) = 'r') = False from by decide,
      show (('u' : Char) = 'b') = False from by decide,
      show (('u' : Char) = 'f') = False from by decide,
      show (('u' : Char) = 'u') = True from by decide,
      if_false, if_true,
      show hexVal '0' = some 0 from by decide]
    rw [harith, Char.ofNat_toNat]
  · left; exact ⟨rfl, h1, h2, by omega⟩

/-- The function `parseStrBody` is a left inverse of `escList` up to the closing quote. -/
theorem parseStrBody_escList : ∀ (cs : List Char) (fuel : Nat) (rest : List Char),
    cs.length + 1 ≤ fuel →
    parseStrBody fuel (escList cs ++ '\x22' :: rest) = some (cs, rest) := by
  intro cs
  induction cs with
  | nil =>
    intro fuel rest h
    obtain ⟨f, rfl⟩ : ∃ f, fuel = f + 1 := ⟨fuel - 1, by omega⟩
    simp [escList, parseStrBody]
  | cons c cs ih =>
    intro fuel rest h
    obtain ⟨f, rfl⟩ : ∃ f, fuel = f + 1 := ⟨fuel - 1, by omega⟩
    have hshape : escList (c :: cs) ++ '\x22' :: rest
        = escChar c ++ (escList cs ++ '\x22' :: rest) := by
      simp [escList, List.append_assoc]
    rw [hshape]
    rcases parseEsc_escChar c (escList cs ++ '\x22' :: rest) with
      ⟨hraw, hne1, hne2, hge⟩ | ⟨tail, htail, hparse⟩
    · rw [hraw]
      simp only [List.cons_append, List.nil_append, parseStrBody]
      rw [if_neg hne1, if_neg hne2, if_neg (by omega : ¬ c.toNat < 32),
        ih f rest (by simp at h; omega)]
    · rw [htail]
      simp only [List.cons_append, parseStrBody,
        show (('\\' : Char) = '\x22') = False from by decide,
        show (('\\' : Char) = '\\') = True from by decide, if_false, if_true]
      simp only [hparse, ih f rest (by simp at h; omega)]

/-! ## `Json.parse` is a left inverse of `Json.stringify` -/

theorem digit_ne_ch (c : Char) (h : isDigitCh c = true) (d : Char) (hd : isDigitCh d = false) :
    c ≠ d := by
  intro hc
  subst hc
  rw [h] at hd
  cases hd

theorem noDigit_head_cons {a : Char} (ha : isDigitCh a = false) (t : List Char) :
    ∀ c, (a :: t).head? = some c → isDigitCh c = false := by
  intro c hc
  rw [List.head?_cons, Option.some.injEq] at hc
  rwa [← hc]

theorem noDigit_head_nil : ∀ c, ([] : List Char).head? = some c → isDigitCh c = false := by
  intro c hc
  simp at hc

/-- Every stringified value starts with a character, and that character
is not a closing bracket. -/
theorem strf_cons_ne_rbracket : ∀ v : Json, ∃ c cs, Json.strf v = c :: cs ∧ c ≠ ']' := by
  intro v
  match v with
  | .null => exact ⟨'n', _, rfl, by decide⟩
  | .bool true => exact ⟨'t', _, rfl, by decide⟩
  | .bool false => exact ⟨'f', _, rfl, by decide⟩
  | .num i =>
    by_cases hi : i < 0
    · exact ⟨'-', natToDec i.natAbs, by simp [Json.strf, intToDec, hi], by decide⟩
    · obtain ⟨c, cs, hcons, hdig, _⟩ := parseDigits_natToDec i.natAbs [] noDigit_head_nil
      exact ⟨c, cs, by simp [Json.strf, intToDec, hi, hcons],
        digit_ne_ch c hdig ']' (by decide)⟩
  | .str s => exact ⟨'\x22', _, rfl, by decide⟩
  | .arr xs => exact ⟨'[', _, rfl, by decide⟩
  | .obj kvs => exact ⟨'\x7b', _, rfl, by decide⟩

/-- Dispatch of `parseVal` on a digit head. -/
theorem parseVal_cons_digit (f : Nat) (c : Char) (cs : List Char) (h : isDigitCh c = true) :
    parseVal (f+1) (c :: cs)
      = some (.num ((parseDigitsCore cs (c.toNat - 48)).1 : Int),
          (parseDigitsCore cs (c.toNat - 48)).2) := by
  simp only [parseVal]
  rw [if_neg (digit_ne_ch c h 'n' (by decide)), if_neg (digit_ne_ch c h 't' (by decide)),
    if_neg (digit_ne_ch c h 'f' (by decide)), if_neg (digit_ne_ch c h '\x22' (by decide)),
    if_neg (digit_ne_ch c h '[' (by decide)), if_neg (digit_ne_ch c h '\x7b' (by decide)),
    if_neg (digit_ne_ch c h '-' (by decide)), if_pos h]

/-- Dispatch of `parseVal` on an opening bracket whose next character is
not an immediate close. -/
theorem parseVal_cons_lbracket (f : Nat) (c2 : Char) (cs2 : List Char) (h : c2 ≠ ']') :
    parseVal (f+1) ('[' :: c2 :: cs2)
      = match parseElems f (c2 :: cs2) with
        | some (xs, r) => some (.arr xs, r)
        | none => none := by
  simp only [parseVal,
    show (('[' : Char) = 'n') = False from by decide,
    show (('[' : Char) = 't') = False from by decide,
    show (('[' : Char) = 'f') = False from by decide,
    show (('[' : Char) = '\x22') = False from by decide,
    show (('[' : Char) = '[') = True from by decide,
    if_false, if_true]
  rw [if_neg h]

/-- Dispatch of `parseVal` on an opening brace whose next character is
not an immediate close. -/
theorem parseVal_cons_lbrace (f : Nat) (c2 : Char) (cs2 : List Char) (h : c2 ≠ '\x7d') :
    parseVal (f+1) ('\x7b' :: c2 :: cs2)
      = match parseMembers f (c2 :: cs2) with
        | some (kvs, r) => some (.obj kvs, r)
        | none => none := by
  simp only [parseVal,
    show (('\x7b' : Char) = 'n') = False from by decide,
    show (('\x7b' : Char) = 't') = False from by decide,
    show (('\x7b' : Char) = 'f') = False from by decide,
    show (('\x7b' : Char) = '\x22') = False from by decide,
    show (('\x7b' : Char) = '[') = False from by decide,
    show (('\x7b' : Char) = '\x7b') = True from by decide,
    if_false, if_true]
  rw [if_neg h]

/-- With enough fuel, parsing the stringification of a value (resp. of a
nonempty element or member list, with the closing delimiter appended)
recovers it exactly.  Proved by induction on the fuel, which every
recursive call of the parser strictly decreases. -/
theorem parse_strf_all : ∀ f : Nat,
    (∀ (v : Json) (rest : List Char),
      (Json.strf v).length + 1 ≤ f →
      (∀ c, rest.head? = some c → isDigitCh c = false) →
      parseVal f (Json.strf v ++ rest) = some (v, rest)) ∧
    (∀ (xs : List Json) (rest : List Char),
      xs ≠ [] → (Json.strfElems xs).length + 2 ≤ f →
      parseElems f (Json.strfElems xs ++ ']' :: rest) = some (xs, rest)) ∧
    (∀ (kvs : List (String × Json)) (rest : List Char),
      kvs ≠ [] → (Json.strfMembers kvs).length + 2 ≤ f →
      parseMembers f (Json.strfMembers kvs ++ '\x7d' :: rest) = some (kvs, rest)) := by
  intro f
  induction f with
  | zero =>
    refine ⟨?_, ?_, ?_⟩
    · intro v rest h _
      omega
    · intro xs rest _ h
      omega
    · intro kvs rest _ h
      omega
  | succ f ih =>
    obtain ⟨ihV, ihE, ihM⟩ := ih
    refine ⟨?_, ?_, ?_⟩
    · intro v rest hfuel hrest
      cases v with
      | null => simp [Json.strf, parseVal]
      | bool b => cases b <;> simp [Json.strf, parseVal]
      | num i =>
        by_cases hi : i < 0
        · rw [show Json.strf (.num i) = '-' :: natToDec i.natAbs from by
            simp [Json.strf, intToDec, hi]]
          simp only [List.cons_append, parseVal,
            show (('-' : Char) = 'n') = False from by decide,
            show (('-' : Char) = 't') = False from by decide,
            show (('-' : Char) = 'f') = False from by decide,
            show (('-' : Char) = '\x22') = False from by decide,
            show (('-' : Char) = '[') = False from by decide,
            show (('-' : Char) = '\x7b') = False from by decide,
            show (('-' : Char) = '-') = True from by decide,
            if_false, if_true]
          simp only [parseNatDec_append i.natAbs rest hrest]
          have hnn : -(i.natAbs : Int) = i := by omega
          rw [hnn]
        · rw [show Json.strf (.num i) = natToDec i.natAbs from by
            simp [Json.strf, intToDec, hi]]
          obtain ⟨c, cs, hcons, hdig, hp⟩ := parseDigits_natToDec i.natAbs rest hrest
          rw [hcons, List.cons_append, parseVal_cons_digit f c _ hdig, hp]
          have hnn : (i.natAbs : Int) = i := Int.natAbs_of_nonneg (by omega)
          rw [hnn]
      | str s =>
        have hlen : s.toList.length + 1 ≤ f + 1 := by
          have h1 := length_escList_ge s.toList
          simp only [Json.strf, List.length_cons, List.length_append, List.length_singleton] at hfuel
          omega
        rw [show Json.strf (.str s) ++ rest = '\x22' :: (escList s.toList ++ '\x22' :: rest) from by
          simp [Json.strf, List.append_assoc]]
        simp only [parseVal,
          show (('\x22' : Char) = 'n') = False from by decide,
          show (('\x22' : Char) = 't') = False from by decide,
          show (('\x22' : Char) = 'f') = False from by decide,
          show (('\x22' : Char) = '\x22') = True from by decide,
          if_false, if_true]
        rw [parseStrBody_escList s.toList (f+1) rest hlen]
        rfl
      | arr xs =>
        cases xs with
        | nil => simp [Json.strf, Json.strfElems, parseVal]
        | cons x xs =>
          obtain ⟨cx, csx, hcx, hcxne⟩ := strf_cons_ne_rbracket x
          have harith : (Json.strfElems (x :: xs)).length + 2 ≤ f := by
            simp only [Json.strf, List.length_cons, List.length_append, List.length_singleton] at hfuel
            omega
          have hshape : Json.strf (.arr (x :: xs)) ++ rest
              = '[' :: (Json.strfElems (x :: xs) ++ ']' :: rest) := by
            simp [Json.strf, List.append_assoc]
          have hEcons : Json.strfElems (x :: xs) ++ ']' :: rest
              = cx :: (csx ++ (Json.strfElems (x :: xs)).drop (csx.length + 1) ++ ']' :: rest) := by
            match xs with
            | [] => rw [Json.strfElems, hcx]; simp
            | y :: ys => rw [Json.strfElems, hcx]; simp [List.append_assoc]
          rw [hshape, hEcons, parseVal_cons_lbracket f cx _ hcxne, ← hEcons,
            ihE (x :: xs) rest (by simp) harith]
      | obj kvs =>
        cases kvs with
        | nil => simp [Json.strf, Json.strfMembers, parseVal]
        | cons kv kvs =>
          obtain ⟨k, w⟩ := kv
          have harith : (Json.strfMembers ((k, w) :: kvs)).length + 2 ≤ f := by
            simp only [Json.strf, List.length_cons, List.length_append, List.length_singleton] at hfuel
            omega
          have hshape : Json.strf (.obj ((k, w) :: kvs)) ++ rest
              = '\x7b' :: (Json.strfMembers ((k, w) :: kvs) ++ '\x7d' :: rest) := by
            simp [Json.strf, List.append_assoc]
          have hMcons : Json.strfMembers ((k, w) :: kvs) ++ '\x7d' :: rest
              = '\x22' :: ((Json.strfMembers ((k, w) :: kvs)).drop 1 ++ '\x7d' :: rest) := by
            match kvs with
            | [] => rw [Json.strfMembers]; simp
            | m :: ms => rw [Json.strfMembers]; simp [List.append_assoc]
          rw [hshape, hMcons, parseVal_cons_lbrace f '\x22' _ (by decide), ← hMcons,
            ihM ((k, w) :: kvs) rest (by simp) harith]
    · intro xs rest hne hfuel
      cases xs with
      | nil => exact absurd rfl hne
      | cons x xs =>
        cases xs with
        | nil =>
          have hx : (Json.strf x).length + 1 ≤ f := by
            simp only [Json.strfElems] at hfuel
            omega
          simp only [Json.strfElems, parseElems,
            ihV x (']' :: rest) (by omega) (noDigit_head_cons (by decide) rest)]
        | cons y ys =>
          have hlen : (Json.strf x).length + 1 + (Json.strfElems (y :: ys)).length
              = (Json.strfElems (x :: y :: ys)).length := by
            simp [Json.strfElems]
            omega
          have hx : (Json.strf x).length + 1 ≤ f := by omega
          have hE : (Json.strfElems (y :: ys)).length + 2 ≤ f := by omega
          rw [show Json.strfElems (x :: y :: ys) ++ ']' :: rest
              = Json.strf x ++ (',' :: (Json.strfElems (y :: ys) ++ ']' :: rest)) from by
            rw [Json.strfElems]
            simp [List.append_assoc]]
          simp only [parseElems,
            ihV x (',' :: (Json.strfElems (y :: ys) ++ ']' :: rest)) hx
              (noDigit_head_cons (by decide) _),
            ihE (y :: ys) rest (by simp) hE]
    · intro kvs rest hne hfuel
      cases kvs with
      | nil => exact absurd rfl hne
      | cons kv kvs =>
        obtain ⟨k, v⟩ := kv
        cases kvs with
        | nil =>
          have hklen : k.toList.length + 1 ≤ f + 1 := by
            have h1 := length_escList_ge k.toList
            simp only [Json.strfMembers, List.length_cons, List.length_append] at hfuel
            omega
          have hvlen : (Json.strf v).length + 1 ≤ f := by
            simp only [Json.strfMembers, List.length_cons, List.length_append] at hfuel
            omega
          rw [show Json.strfMembers [(k, v)] ++ '\x7d' :: rest
              = '\x22' :: (escList k.toList ++ '\x22' :: (':' :: (Json.strf v ++ '\x7d' :: rest))) from by
            rw [Json.strfMembers]
            simp [List.append_assoc]]
          simp only [parseMembers,
            show (('\x22' : Char) = '\x22') = True from by decide, if_true,
            parseStrBody_escList k.toList (f+1) (':' :: (Json.strf v ++ '\x7d' :: rest)) hklen,
            ihV v ('\x7d' :: rest) hvlen (noDigit_head_cons (by decide) rest)]
          rfl
        | cons m ms =>
          have hmemlen : ((('\x22' :: (escList k.toList ++ '\x22' :: ':' :: Json.strf v))).length
                + 1 + (Json.strfMembers (m :: ms)).length)
              = (Json.strfMembers ((k, v) :: m :: ms)).length := by
            rw [Json.strfMembers]
            simp
            omega
          have hklen : k.toList.length + 1 ≤ f + 1 := by
            have h1 := length_escList_ge k.toList
            simp only [List.length_cons, List.length_append] at hmemlen
            omega
          have hvlen : (Json.strf v).length + 1 ≤ f := by
            simp only [List.length_cons, List.length_append] at hmemlen
            omega
          have hMlen : (Json.strfMembers (m :: ms)).length + 2 ≤ f := by
            simp only [List.length_cons, List.length_append] at hmemlen
            omega
          rw [show Json.strfMembers ((k, v) :: m :: ms) ++ '\x7d' :: rest
              = '\x22' :: (escList k.toList ++ '\x22' :: (':' :: (Json.strf v
                  ++ ',' :: (Json.strfMembers (m :: ms) ++ '\x7d' :: rest)))) from by
            rw [Json.strfMembers]
            simp [List.append_assoc]]
          simp only [parseMembers,
            show (('\x22' : Char) = '\x22') = True from by decide, if_true,
            parseStrBody_escList k.toList (f+1) _ hklen,
            ihV v (',' :: (Json.strfMembers (m :: ms) ++ '\x7d' :: rest)) hvlen
              (noDigit_head_cons (by decide) _),
            ihM (m :: ms) rest (by simp) hMlen]
          rfl

/-- Parsing the stringification of `v` (with enough fuel, before a
non-digit remainder) recovers exactly `v`. -/
theorem parseVal_strf (v : Json) (fuel : Nat) (rest : List Char)
    (hfuel : (Json.strf v).length + 1 ≤ fuel)
    (hrest : ∀ c, rest.head? = some c → isDigitCh c = false) :
    parseVal fuel (Json.strf v ++ rest) = some (v, rest) :=
  (parse_strf_all fuel).1 v rest hfuel hrest

/-- Round trip: `JSON.parse` undoes `JSON.stringify`. -/
theorem Json.parse_stringify (v : Json) : Json.parse (Json.stringify v) = some v := by
  have main := parseVal_strf v ((Json.strf v).length + 1) [] (by omega) noDigit_head_nil
  rw [List.append_nil] at main
  unfold Json.parse Json.stringify
  rw [show (String.mk v.strf).toList = v.strf from rfl,
    show (String.mk v.strf).length = v.strf.length from rfl, main]

/-! ## Store lemmas -/

theorem find?_filter_ne (σ : Store) (k k' : String) (h : k' ≠ k) :
    List.find? (fun e => e.1 == k') (σ.filter (fun e => !(e.1 == k)))
      = List.find? (fun e => e.1 == k') σ := by
  induction σ with
  | nil => rfl
  | cons e σ ih =>
    by_cases he : e.1 = k
    · rw [List.filter_cons_of_neg (by simp [he]),
        List.find?_cons_of_neg _ (by simp [he, Ne.symm h]), ih]
    · rw [List.filter_cons_of_pos (by simp [he])]
      by_cases he' : e.1 = k'
      · rw [List.find?_cons_of_pos _ (by simp [he']), List.find?_cons_of_pos _ (by simp [he'])]
      · rw [List.find?_cons_of_neg _ (by simp [he']), List.find?_cons_of_neg _ (by simp [he']), ih]

theorem storeGet_set_self (σ : Store) (k v : String) (ttl : Nat) :
    storeGet (storeSet σ k v ttl) k = some v := by
  unfold storeGet storeSet
  rw [List.find?_cons_of_pos _ (by simp)]

theorem storeGet_set_ne (σ : Store) (k k' v : String) (ttl : Nat) (h : k' ≠ k) :
    storeGet (storeSet σ k v ttl) k' = storeGet σ k' := by
  unfold storeGet storeSet
  rw [List.find?_cons_of_neg _ (by simp [Ne.symm h]), find?_filter_ne σ k k' h]

theorem storeTTL_set_self (σ : Store) (k v : String) (ttl : Nat) :
    storeTTL (storeSet σ k v ttl) k = some ttl := by
  unfold storeTTL storeSet
  rw [List.find?_cons_of_pos _ (by simp)]

/-! ## Session / cache lemmas -/

theorem stringify_ne_empty (v : Json) : Json.stringify v ≠ "" := by
  obtain ⟨c, cs, hcx, _⟩ := strf_cons_ne_rbracket v
  unfold Json.stringify
  rw [hcx]
  intro h
  have hd := congrArg String.data h
  simp at hd

/-- Reading a session whose stored value is a stringified JSON value
recovers that value. -/
theorem getSession_stringify (σ : Store) (sid : String) (v : Json)
    (h : storeGet σ sid = some (Json.stringify v)) :
    getSession σ sid = .ok (some v) := by
  unfold getSession
  rw [h]
  simp [stringify_ne_empty v, Json.parse_stringify]

/-- Reading a cache key whose stored value is a stringified JSON value
recovers that value. -/
theorem cacheGet_stringify (σ : Store) (key : String) (v : Json)
    (h : storeGet σ key = some (Json.stringify v)) :
    cacheGet σ key = .ok (some v) := by
  unfold cacheGet
  rw [h]
  simp [stringify_ne_empty v, Json.parse_stringify]

/-- Appending to a session holding a well-formed stringified array pushes
the entry at the end and persists the new array with the given TTL. -/
theorem appendToSession_stringified (σ : Store) (sid : String) (hist : List Json)
    (entry : Json) (ttl : Nat)
    (h : storeGet σ sid = some (Json.stringify (.arr hist))) :
    appendToSession σ sid entry ttl
      = (storeSet σ sid (Json.stringify (.arr (hist ++ [entry]))) ttl,
          .ok (.arr (hist ++ [entry]))) := by
  unfold appendToSession
  rw [getSession_stringify σ sid (.arr hist) h]
  simp [jsTruthy]

/-- Appending to an absent session auto-creates it with the single entry. -/
theorem appendToSession_absent (σ : Store) (sid : String) (entry : Json) (ttl : Nat)
    (h : storeGet σ sid = none) :
    appendToSession σ sid entry ttl
      = (storeSet σ sid (Json.stringify (.arr [entry])) ttl, .ok (.arr [entry])) := by
  unfold appendToSession getSession
  rw [h]
  rfl

/-- An append that throws leaves the store untouched. -/
theorem appendToSession_error_store (σ : Store) (sid : String) (entry : Json) (ttl : Nat)
    (σ' : Store) (e : JsErr)
    (h : appendToSession σ sid entry ttl = (σ', .error e)) : σ' = σ := by
  unfold appendToSession at h
  split at h
  · exact (Prod.ext_iff.1 h).1.symm
  · split at h
    · exact absurd (Prod.ext_iff.1 h).2 (by simp)
    · exact (Prod.ext_iff.1 h).1.symm

/-! ## Retrieval store effects -/

/-- The function `getEmbedding` either leaves the store unchanged or writes exactly the
embedding-cache key. -/
theorem getEmbedding_store_cases (σ : Store) (t : String) (eR : Except JsErr (Option Json)) :
    (getEmbedding σ t eR).store = σ ∨
    ∃ emb, (getEmbedding σ t eR).store = cacheSet σ (embedKey t) emb 86400 := by
  unfold getEmbedding
  split
  · left; rfl
  · split
    · left; rfl
    · split
      · left; rfl
      · split
        · left; rfl
        · left; rfl
        · split
          · right; exact ⟨_, rfl⟩
          · left; rfl

theorem getEmbedding_store_preserve (σ : Store) (t : String) (eR : Except JsErr (Option Json))
    (key : String) (h : key ≠ embedKey t) :
    storeGet (getEmbedding σ t eR).store key = storeGet σ key := by
  rcases getEmbedding_store_cases σ t eR with hc | ⟨emb, hc⟩ <;> rw [hc]
  unfold cacheSet
  exact storeGet_set_ne _ _ _ _ _ h

/-- The function `retrieveTopK` either leaves the store unchanged, or performs the
embedding-cache write, or that write followed by the retrieval-cache
write. -/
theorem retrieveTopK_store_cases (σ : Store) (q : String) (k : Nat)
    (eR : Except JsErr (Option Json)) (sR : Except JsErr (List QHit)) :
    (retrieveTopK σ q k eR sR).store = σ ∨
    (retrieveTopK σ q k eR sR).store = (getEmbedding σ q eR).store ∨
    ∃ pl, (retrieveTopK σ q k eR sR).store
        = cacheSet (getEmbedding σ q eR).store (retrieveKey q k) pl 300 := by
  unfold retrieveTopK retrieveMiss
  split
  · left; rfl
  · split
    · split
      · left; rfl
      · split
        · right; left; rfl
        · split
          · right; left; rfl
          · rename_i hits
            right; right
            exact ⟨Json.arr (hits.map QHit.payload), rfl⟩
    · split
      · right; left; rfl
      · split
        · right; left; rfl
        · rename_i hits
          right; right
          exact ⟨Json.arr (hits.map QHit.payload), rfl⟩

theorem retrieveTopK_store_preserve (σ : Store) (q : String) (k : Nat)
    (eR : Except JsErr (Option Json)) (sR : Except JsErr (List QHit)) (key : String)
    (h1 : key ≠ embedKey q) (h2 : key ≠ retrieveKey q k) :
    storeGet (retrieveTopK σ q k eR sR).store key = storeGet σ key := by
  have hE := getEmbedding_store_preserve σ q eR key h1
  rcases retrieveTopK_store_cases σ q k eR sR with hc | hc | ⟨pl, hc⟩ <;> rw [hc]
  · exact hE
  · unfold cacheSet
    rw [storeGet_set_ne _ _ _ _ _ h2]
    exact hE

/-! ## Key-namespace helpers -/

theorem strStartsWith_append (pre suf : String) :
    strStartsWith (pre ++ suf) pre = true := by
  unfold strStartsWith
  show pre.data.isPrefixOf (pre ++ suf).data = true
  rw [String.data_append, List.isPrefixOf_iff_prefix]
  exact List.prefix_append pre.data suf.data

/-- A string that does not start with `pre` differs from every string of
the form `pre ++ suf`. -/
theorem ne_append_of_not_startsWith (s pre suf : String)
    (h : strStartsWith s pre = false) : s ≠ pre ++ suf := by
  intro hs
  rw [hs, strStartsWith_append] at h
  cases h

theorem strIncludes_of_startsWith (s pat : String) (h : strStartsWith s pat = true) :
    strIncludes s pat = true := by
  unfold strIncludes
  unfold strStartsWith at h
  cases hls : s.toList with
  | nil =>
    cases hp : pat.toList with
    | nil => simp [hp]
    | cons p ps =>
      rw [hls, hp] at h
      simp [List.isPrefixOf] at h
  | cons c cs =>
    rw [hls] at h
    rw [List.tails_cons, List.any_cons, h, Bool.true_or]

/-! ## Sequences of appends -/

/-- Run a sequence of `appendToSession` calls, collecting each call's
return value. -/
def appendAll (σ : Store) (sid : String) (entries : List Json) (ttl : Nat) :
    Store × List (Except JsErr Json) :=
  match entries with
  | [] => (σ, [])
  | e :: es =>
    ((appendAll (appendToSession σ sid e ttl).1 sid es ttl).1,
      (appendToSession σ sid e ttl).2 :: (appendAll (appendToSession σ sid e ttl).1 sid es ttl).2)

/-- The expected return values of successive appends: each returns the
full history so far. -/
def runningHistories (acc : List Json) : List Json → List (Except JsErr Json)
  | [] => []
  | e :: es => .ok (.arr (acc ++ [e])) :: runningHistories (acc ++ [e]) es

theorem appendAll_spec (entries : List Json) : ∀ (σ : Store) (sid : String) (acc : List Json)
    (ttl : Nat), storeGet σ sid = some (Json.stringify (.arr acc)) →
    (appendAll σ sid entries ttl).2 = runningHistories acc entries ∧
    storeGet (appendAll σ sid entries ttl).1 sid
      = some (Json.stringify (.arr (acc ++ entries))) := by
  induction entries with
  | nil =>
    intro σ sid acc ttl h
    exact ⟨rfl, by simpa using h⟩
  | cons e es ih =>
    intro σ sid acc ttl h
    have happ := appendToSession_stringified σ sid acc e ttl h
    have hnext : storeGet (appendToSession σ sid e ttl).1 sid
        = some (Json.stringify (.arr (acc ++ [e]))) := by
      rw [happ]
      exact storeGet_set_self ..
    obtain ⟨ih1, ih2⟩ := ih (appendToSession σ sid e ttl).1 sid (acc ++ [e]) ttl hnext
    refine ⟨?_, ?_⟩
    · unfold appendAll
      rw [ih1, happ]
      simp [runningHistories]
    · unfold appendAll
      rw [ih2]
      simp [List.append_assoc]

/-! ## Miscellaneous string helpers for the claims -/

/-- Does `s` end with `pat`? -/
def strEndsWith (s pat : String) : Bool := pat.data.isSuffixOf s.data

/-! ## Spec-side definitions (used to state refinement claims)

These definitions follow the wording of the specification, not the
source; the claims compare them with the definitions above. -/

/-- Modelled from the spec: the administrative key enumeration as §6
words it — filter out keys with the `embed:`/`retrieve:` *prefix* and
keys shorter than 5 characters. -/
def specPrefixFilteredKeys (σ : Store) : List String :=
  (storeKeys σ).filter (fun key =>
    !(strStartsWith key ("embed:") || strStartsWith key ("retrieve:")) && decide (5 ≤ key.length))

/-- Modelled from the spec: `Q{i}: <query>\nA{i}: <answer>` lines,
1-indexed, in history order (§4.6). -/
def specHistLines (i : Nat) : List (String × String) → List String
  | [] => []
  | (q, a) :: t =>
    ("Q" ++ natToDecS i ++ ": " ++ q ++ "\nA" ++ natToDecS i ++ ": " ++ a) :: specHistLines (i+1) t

/-- Modelled from the spec: numbered `[Passage {i}]` blocks with
`Title:`/`Content:` lines, in the given order (§4.6). -/
def specPassageBlocks (i : Nat) : List (String × String × Option String) → List String
  | [] => []
  | (t, c, _) :: ps =>
    ("[Passage " ++ natToDecS i ++ "]\nTitle: " ++ t ++ "\nContent: " ++ c)
      :: specPassageBlocks (i+1) ps

/-- A well-formed `{query, answer}` turn record. -/
def mkTurnRecord (qa : String × String) : Json :=
  .obj [("query", .str qa.1), ("answer", .str qa.2)]

/-- A well-formed `{title, content, link}` passage record. -/
def mkPassageRecord (p : String × String × Option String) : Json :=
  .obj [("title", .str p.1), ("content", .str p.2.1),
        ("link", match p.2.2 with | some l => .str l | none => .null)]

/-! ## Chat-turn structure -/

/-- Every chat turn either aborts with an error — in which case its store
is the initial store or the store after retrieval's cache writes — or
succeeds, in which case the generation provider returned a response and
the final store is exactly the post-retrieval store with the
`{query, answer}` turn appended. -/
theorem chatTurn_cases (σ : Store) (sid q : String) (k : Nat) (pr : Providers) :
    (∃ e, (chatTurn σ sid q k pr).result = .error e ∧
      ((chatTurn σ sid q k pr).store = σ ∨
       (chatTurn σ sid q k pr).store
         = (retrieveTopK σ q k pr.embedResp pr.searchResp).store)) ∨
    (∃ r, (chatTurn σ sid q k pr).result = .ok r ∧
      (∃ t, pr.genResp = .ok t) ∧
      (chatTurn σ sid q k pr).store
        = (appendToSession (retrieveTopK σ q k pr.embedResp pr.searchResp).store sid
            (mkTurn q r.answer) SESSION_TTL).1) := by
  unfold chatTurn
  split
  · exact Or.inl ⟨_, rfl, Or.inl rfl⟩
  · split
    · exact Or.inl ⟨_, rfl, Or.inl rfl⟩
    · split
      · exact Or.inl ⟨_, rfl, Or.inr rfl⟩
      · split
        · exact Or.inl ⟨_, rfl, Or.inr rfl⟩
        · split
          · exact Or.inl ⟨_, rfl, Or.inr rfl⟩
          · rename_i hv passages prompt hbp answer hask
            have hgen : ∃ t, pr.genResp = .ok t := by
              unfold askModel at hask
              cases hg : pr.genResp with
              | error e => rw [hg] at hask; cases hask
              | ok t => exact ⟨t, rfl⟩
            split
            · rename_i σ2 e2 happ
              refine Or.inl ⟨e2, rfl, Or.inr ?_⟩
              exact appendToSession_error_store _ _ _ _ _ _ happ
            · rename_i σ2 newHist happ
              refine Or.inr ⟨⟨answer, newHist⟩, rfl, hgen, ?_⟩
              exact (congrArg Prod.fst happ).symm

theorem strStartsWith_embedKey (t : String) :
    strStartsWith (embedKey t) ("embed:") = true := strStartsWith_append ("embed:") (simpleHash t)

theorem strStartsWith_retrieveKey (q : String) (k : Nat) :
    strStartsWith (retrieveKey q k) ("retrieve:") = true := by
  unfold strStartsWith retrieveKey
  show ("retrieve:" : String).data.isPrefixOf _ = true
  rw [ List.isPrefixOf_iff_prefix]
  simp only [String.data_append, List.append_assoc]
  exact List.prefix_append ..

theorem ne_of_startsWith_mismatch (s t pre : String)
    (hs : strStartsWith s pre = false) (ht : strStartsWith t pre = true) : s ≠ t := by
  intro h
  rw [h, ht] at hs
  cases hs

/-- C1: if retrieval or generation fails, the chat turn aborts and the
value stored under the session ID is untouched; a turn can only succeed
after the generation provider answered, and then the final store is
exactly the post-retrieval store with the `{query, answer}` turn
appended as the last step.  The session ID is assumed to lie outside the
`embed:`/`retrieve:` cache namespaces, the ownership convention of §3. -/
theorem chat_failure_preserves_session (σ : Store) (sid q : String) (k : Nat) (pr : Providers)
    (h1 : strStartsWith sid ("embed:") = false)
    (h2 : strStartsWith sid ("retrieve:") = false) :
    (∀ e, (chatTurn σ sid q k pr).result = .error e →
      storeGet (chatTurn σ sid q k pr).store sid = storeGet σ sid) ∧
    (∀ e, pr.genResp = .error e → ∀ r, (chatTurn σ sid q k pr).result ≠ .ok r) ∧
    (∀ r, (chatTurn σ sid q k pr).result = .ok r →
      (chatTurn σ sid q k pr).store
        = (appendToSession (retrieveTopK σ q k pr.embedResp pr.searchResp).store sid
            (mkTurn q r.answer) SESSION_TTL).1) := by
  have hpre : storeGet (retrieveTopK σ q k pr.embedResp pr.searchResp).store sid
      = storeGet σ sid :=
    retrieveTopK_store_preserve σ q k pr.embedResp pr.searchResp sid
      (ne_of_startsWith_mismatch sid _ ("embed:") h1 (strStartsWith_embedKey q))
      (ne_of_startsWith_mismatch sid _ ("retrieve:") h2 (strStartsWith_retrieveKey q k))
  refine ⟨?_, ?_, ?_⟩
  · intro e he
    rcases chatTurn_cases σ sid q k pr with ⟨e2, _, hst | hst⟩ | ⟨r, hok, _, _⟩
    · rw [hst]
    · rw [hst]
      exact hpre
    · rw [hok] at he
      cases he
  · intro e hg r hr
    rcases chatTurn_cases σ sid q k pr with ⟨e2, herr, _⟩ | ⟨r2, hok, ⟨t, hgent⟩, _⟩
    · rw [herr] at hr
      cases hr
    · rw [hg] at hgent
      cases hgent
  · intro r hr
    rcases chatTurn_cases σ sid q k pr with ⟨e2, herr, _⟩ | ⟨r2, hok, _, hst⟩
    · rw [herr] at hr
      cases hr
    · rw [hok] at hr
      cases hr
      exact hst

/-- Witness for C1 at a concrete failing generation call. -/
theorem chat_failure_preserves_session_witness :
    storeGet (chatTurn [(("sess1" : String), ("[]" : String), 1800)] ("sess1") ("hi") 2
        ⟨.ok (some (.arr [.num 1])), .ok [⟨.obj [("title", .str ("T"))]⟩],
          .error (.provider ("boom"))⟩).store ("sess1")
      = storeGet [(("sess1" : String), ("[]" : String), 1800)] ("sess1") :=
  (chat_failure_preserves_session [(("sess1" : String), ("[]" : String), 1800)]
      ("sess1") ("hi") 2
      ⟨.ok (some (.arr [.num 1])), .ok [⟨.obj [("title", .str ("T"))]⟩],
        .error (.provider ("boom"))⟩
      (by decide) (by decide)).1 (.provider ("boom")) (by rfl)

/-- C2 (counterexample): a string value does not survive the cache
round-trip — `cacheSet` stores `"42"` verbatim and `cacheGet` JSON-parses
it back as the number 42, which is not structurally equal to the string. -/
theorem cache_roundtrip_string_cex :
    cacheGet (cacheSet [] ("k1") (.str ("42")) 60) ("k1") = .ok (some (.num 42)) ∧
    Json.num 42 ≠ Json.str ("42") :=
  ⟨rfl, fun h => Json.noConfusion h⟩

/-- C2 (amended): the cache round-trip returns a structurally equal value
for every *non-string* JSON-serializable value; strings are stored
verbatim but always JSON-parsed on read, so they do not round-trip. -/
theorem cache_roundtrip_nonstring (σ : Store) (key : String) (v : Json) (ttl : Nat)
    (h : ∀ s, v ≠ .str s) :
    cacheGet (cacheSet σ key v ttl) key = .ok (some v) := by
  unfold cacheSet
  rcases v with _ | b | n | s | xs | kvs
  · exact cacheGet_stringify _ key _ (storeGet_set_self σ key _ ttl)
  · exact cacheGet_stringify _ key _ (storeGet_set_self σ key _ ttl)
  · exact cacheGet_stringify _ key _ (storeGet_set_self σ key _ ttl)
  · exact absurd rfl (h s)
  · exact cacheGet_stringify _ key _ (storeGet_set_self σ key _ ttl)
  · exact cacheGet_stringify _ key _ (storeGet_set_self σ key _ ttl)

/-- Witness for C2 (amended) at a number, an array and an object. -/
theorem cache_roundtrip_nonstring_witness :
    cacheGet (cacheSet [] ("key0") (.num 7) 5) ("key0") = .ok (some (.num 7)) ∧
    cacheGet (cacheSet [] ("key0") (.arr [.num 1, .str ("x")]) 5) ("key0")
      = .ok (some (.arr [.num 1, .str ("x")])) ∧
    cacheGet (cacheSet [] ("key0") (.obj [("a", .null)]) 5) ("key0")
      = .ok (some (.obj [("a", .null)])) :=
  ⟨cache_roundtrip_nonstring [] ("key0") (.num 7) 5 (fun _ h => Json.noConfusion h),
   cache_roundtrip_nonstring [] ("key0") (.arr [.num 1, .str ("x")]) 5 (fun _ h => Json.noConfusion h),
   cache_roundtrip_nonstring [] ("key0") (.obj [("a", .null)]) 5 (fun _ h => Json.noConfusion h)⟩

/-- C3 (counterexample): `getSession` performs no array check — stored
`"42"` (valid JSON, not an array) is returned as the number 42 with no
`CorruptSession` failure; and a stored empty string is conflated with
absence (`null`) rather than raising a syntax error. -/
theorem getSession_no_array_check_cex :
    getSession [(("abcde" : String), ("42" : String), 9)] ("abcde") = .ok (some (.num 42)) ∧
    getSession [(("vwxyz" : String), ("" : String), 9)] ("vwxyz") = .ok none :=
  ⟨rfl, rfl⟩

/-- C3 (amended): `getSession` signals absence with `null` (never an
empty array) when the key is missing; it throws a `SyntaxError` when the
stored data is nonempty and not valid JSON; but any successfully parsed
JSON value — array or not — is returned as-is, and a stored empty string
yields `null`. -/
theorem getSession_behaviour (σ : Store) (sid : String) :
    (storeGet σ sid = none → getSession σ sid = .ok none) ∧
    (∀ d, storeGet σ sid = some d → d ≠ "" → Json.parse d = none →
      getSession σ sid = .error .syntaxError) ∧
    (∀ d j, storeGet σ sid = some d → Json.parse d = some j →
      getSession σ sid = .ok (some j)) ∧
    (storeGet σ sid = some ("") → getSession σ sid = .ok none) := by
  refine ⟨?_, ?_, ?_, ?_⟩ <;> unfold getSession
  · intro h
    simp only [h]
  · intro d h hne hp
    simp only [h, if_neg hne, hp]
  · intro d j h hp
    by_cases hd : d = ""
    · subst hd
      rw [show (Json.parse ("") : Option Json) = none from rfl] at hp
      cases hp
    · simp only [h, if_neg hd, hp]
  · intro h
    simp [h]

/-- Witness for C3 (amended): a missing key, a corrupt value, a parsed
non-array value. -/
theorem getSession_behaviour_witness :
    getSession [] ("nokey") = .ok none ∧
    getSession [(("abcde" : String), ("notjson" : String), 1)] ("abcde") = .error .syntaxError ∧
    getSession [(("abcde" : String), ("42" : String), 1)] ("abcde") = .ok (some (.num 42)) :=
  ⟨(getSession_behaviour [] ("nokey")).1 rfl,
   (getSession_behaviour _ ("abcde")).2.1 ("notjson") rfl (by decide) rfl,
   (getSession_behaviour _ ("abcde")).2.2.1 ("42") (.num 42) rfl rfl⟩

/-- C6: for the same query and different `k`, `retrieveTopK` uses
distinct cache keys, so the two calls can never share a cache entry: a
write under one key leaves reads of the other unchanged. -/
theorem retrieve_cache_keys_distinct (q : String) (k1 k2 : Nat) (h : k1 ≠ k2) :
    retrieveKey q k1 ≠ retrieveKey q k2 ∧
    ∀ (σ : Store) (v : Json) (ttl : Nat),
      cacheGet (cacheSet σ (retrieveKey q k1) v ttl) (retrieveKey q k2)
        = cacheGet σ (retrieveKey q k2) := by
  have hne : retrieveKey q k1 ≠ retrieveKey q k2 := by
    intro he
    apply h
    apply natToDec_injective
    have hd := congrArg String.data he
    unfold retrieveKey at hd
    simp only [String.data_append] at hd
    exact List.append_cancel_left hd
  refine ⟨hne, ?_⟩
  intro σ v ttl
  unfold cacheGet cacheSet
  rw [storeGet_set_ne _ _ _ _ _ (Ne.symm hne)]

/-- Witness for C6 at `k = 1` and `k = 2`. -/
theorem retrieve_cache_keys_distinct_witness :
    retrieveKey ("climate news") 1 ≠ retrieveKey ("climate news") 2 :=
  (retrieve_cache_keys_distinct ("climate news") 1 2 (by decide)).1

/-- C7: for empty or whitespace-only input, `getEmbedding` returns `null`
immediately: no provider call, no cache read, and an unchanged store. -/
theorem embed_blank_no_call (σ : Store) (s : String) (eR : Except JsErr (Option Json))
    (h : jsTrim s = "") :
    getEmbedding σ s eR = ⟨σ, 0, 0, .ok none⟩ := by
  unfold getEmbedding
  rw [if_pos (Or.inr h)]

/-- Witness for C7 at `""` and `"   "`, with a provider that would
answer (its call count stays 0). -/
theorem embed_blank_no_call_witness :
    getEmbedding [] ("") (.ok (some (.arr [.num 1]))) = ⟨[], 0, 0, .ok none⟩ ∧
    getEmbedding [] ("   ") (.ok (some (.arr [.num 1]))) = ⟨[], 0, 0, .ok none⟩ :=
  ⟨embed_blank_no_call [] ("") _ (by decide),
   embed_blank_no_call [] ("   ") _ (by decide)⟩

/-- C8 (counterexample): the source filters with `key.includes`, not a
prefix test — the key `xembed:1` (length ≥ 5, no cache-namespace prefix)
is dropped by `getAllKeys` although the prefix-based filter the spec
describes would return it. -/
theorem getAllKeys_substring_cex :
    getAllKeys [(("xembed:1" : String), ("v" : String), 1)] = [] ∧
    specPrefixFilteredKeys [(("xembed:1" : String), ("v" : String), 1)] = [("xembed:1" : String)] :=
  ⟨rfl, rfl⟩

/-- C8 (amended): `getAllKeys` returns exactly the live keys that do not
*contain* `embed:` or `retrieve:` as a substring and have length at
least 5; in particular every returned key has length at least 5 and does
not carry either cache-namespace prefix. -/
theorem getAllKeys_spec (σ : Store) (key : String) :
    (key ∈ getAllKeys σ ↔
      key ∈ storeKeys σ ∧ strIncludes key ("embed:") = false ∧
      strIncludes key ("retrieve:") = false ∧ 5 ≤ key.length) ∧
    (key ∈ getAllKeys σ →
      strStartsWith key ("embed:") = false ∧ strStartsWith key ("retrieve:") = false ∧
      5 ≤ key.length) := by
  have hiff : key ∈ getAllKeys σ ↔
      key ∈ storeKeys σ ∧ strIncludes key ("embed:") = false ∧
      strIncludes key ("retrieve:") = false ∧ 5 ≤ key.length := by
    unfold getAllKeys
    rw [List.mem_filter]
    constructor
    · rintro ⟨hmem, hp⟩
      simp only [Bool.and_eq_true, Bool.not_eq_true', Bool.or_eq_false_iff,
        decide_eq_true_eq] at hp
      exact ⟨hmem, hp.1.1, hp.1.2, hp.2⟩
    · rintro ⟨hmem, hA, hB, hC⟩
      refine ⟨hmem, ?_⟩
      simp [hA, hB, hC]
  refine ⟨hiff, fun hk => ?_⟩
  obtain ⟨_, hA, hB, hC⟩ := hiff.1 hk
  refine ⟨?_, ?_, hC⟩
  · cases hs : strStartsWith key ("embed:")
    · rfl
    · have := strIncludes_of_startsWith key ("embed:") hs
      rw [hA] at this
      cases this
  · cases hs : strStartsWith key ("retrieve:")
    · rfl
    · have := strIncludes_of_startsWith key ("retrieve:") hs
      rw [hB] at this
      cases this

/-- Witness for C8 (amended) at a live ordinary key. -/
theorem getAllKeys_spec_witness :
    ("abcde" : String) ∈ getAllKeys [(("abcde" : String), ("v" : String), 1)] ∧
    strStartsWith ("abcde") ("embed:") = false :=
  ⟨(getAllKeys_spec [(("abcde" : String), ("v" : String), 1)] ("abcde")).1.2
      ⟨by simp [storeKeys], rfl, rfl, by decide⟩,
   ((getAllKeys_spec [(("abcde" : String), ("v" : String), 1)] ("abcde")).2 (by decide)).1⟩

/-- C9: `createSession` overwrites unconditionally — whatever was stored
under the id before, afterwards the id maps to the empty history `[]`
with the given (fresh) TTL, `getSession` returns the empty array, and
the effective id is the caller-supplied one. -/
theorem createSession_overwrites (σ : Store) (sid fresh : String) (ttl : Nat) (h : sid ≠ "") :
    (createSession σ sid fresh ttl).2 = sid ∧
    storeGet (createSession σ sid fresh ttl).1 sid = some (Json.stringify (.arr [])) ∧
    storeTTL (createSession σ sid fresh ttl).1 sid = some ttl ∧
    getSession (createSession σ sid fresh ttl).1 sid = .ok (some (.arr [])) := by
  unfold createSession
  rw [if_neg h]
  refine ⟨rfl, storeGet_set_self .., storeTTL_set_self .., ?_⟩
  exact getSession_stringify _ _ _ (storeGet_set_self ..)

/-- Witness for C9: a session with non-empty prior history is destroyed. -/
theorem createSession_overwrites_witness :
    getSession (createSession
        [(("sess1" : String), Json.stringify (.arr [.str ("old")]), 7)]
        ("sess1") ("freshid") 60).1 ("sess1") = .ok (some (.arr [])) :=
  (createSession_overwrites [(("sess1" : String), Json.stringify (.arr [.str ("old")]), 7)]
    ("sess1") ("freshid") 60 (by decide)).2.2.2

/-- C5: immediately after `createSession` the history reads back as the
empty array (never absent), and any finite sequence of appends is
reflected by `getSession` in call order, each append returning the full
new sequence. -/
theorem session_appends_in_order (σ : Store) (sid fresh : String) (ttl : Nat) (es : List Json)
    (h : sid ≠ "") :
    getSession (createSession σ sid fresh ttl).1 sid = .ok (some (.arr [])) ∧
    (appendAll (createSession σ sid fresh ttl).1 sid es ttl).2 = runningHistories [] es ∧
    getSession (appendAll (createSession σ sid fresh ttl).1 sid es ttl).1 sid
      = .ok (some (.arr es)) := by
  have hstore : storeGet (createSession σ sid fresh ttl).1 sid
      = some (Json.stringify (.arr [])) := by
    unfold createSession
    simp only [if_neg h]
    exact storeGet_set_self ..
  obtain ⟨h1, h2⟩ := appendAll_spec es (createSession σ sid fresh ttl).1 sid [] ttl hstore
  rw [List.nil_append] at h2
  exact ⟨getSession_stringify _ _ _ hstore, h1, getSession_stringify _ _ _ h2⟩

/-- Witness for C5 at two concrete appended turns. -/
theorem session_appends_in_order_witness :
    getSession (appendAll (createSession [] ("sess1") ("f") 1800).1 ("sess1")
        [mkTurn ("hi") (some ("hello")), mkTurn ("bye") none] 1800).1 ("sess1")
      = .ok (some (.arr [mkTurn ("hi") (some ("hello")), mkTurn ("bye") none])) ∧
    (appendAll (createSession [] ("sess1") ("f") 1800).1 ("sess1")
        [mkTurn ("hi") (some ("hello")), mkTurn ("bye") none] 1800).2
      = [.ok (.arr [mkTurn ("hi") (some ("hello"))]),
         .ok (.arr [mkTurn ("hi") (some ("hello")), mkTurn ("bye") none])] :=
  ⟨(session_appends_in_order [] ("sess1") ("f") 1800
      [mkTurn ("hi") (some ("hello")), mkTurn ("bye") none] (by decide)).2.2,
   (session_appends_in_order [] ("sess1") ("f") 1800
      [mkTurn ("hi") (some ("hello")), mkTurn ("bye") none] (by decide)).2.1⟩

/-! ## Prompt rendering -/

theorem renderField_turn_query (q a : String) :
    renderField (mkTurnRecord (q, a)) ("query") = .ok q := rfl

theorem renderField_turn_answer (q a : String) :
    renderField (mkTurnRecord (q, a)) ("answer") = .ok a := rfl

theorem renderField_passage_title (t c : String) (l : Option String) :
    renderField (mkPassageRecord (t, c, l)) ("title") = .ok t := rfl

theorem renderField_passage_content (t c : String) (l : Option String) :
    renderField (mkPassageRecord (t, c, l)) ("content") = .ok c := rfl

theorem renderHistLines_turns (hist : List (String × String)) : ∀ i,
    renderHistLines i (hist.map mkTurnRecord) = .ok (specHistLines i hist) := by
  induction hist with
  | nil => intro i; rfl
  | cons qa t ih =>
    intro i
    obtain ⟨q, a⟩ := qa
    simp only [List.map_cons, renderHistLines, renderField_turn_query, renderField_turn_answer,
      ih (i+1), specHistLines]

theorem renderPassageBlocks_recs (ps : List (String × String × Option String)) : ∀ i,
    renderPassageBlocks i (ps.map mkPassageRecord) = .ok (specPassageBlocks i ps) := by
  induction ps with
  | nil => intro i; rfl
  | cons p t ih =>
    intro i
    obtain ⟨pt, pc, pl⟩ := p
    simp only [List.map_cons, renderPassageBlocks, renderField_passage_title,
      renderField_passage_content, ih (i+1), specPassageBlocks]

theorem intercalate_go_length (s : String) : ∀ (as : List String) (acc : String),
    acc.length ≤ (String.intercalate.go acc s as).length := by
  intro as
  induction as with
  | nil => intro acc; exact le_rfl
  | cons a as ih =>
    intro acc
    calc acc.length ≤ (acc ++ s ++ a).length := by
          simp only [String.length_append]
          omega
      _ ≤ _ := ih (acc ++ s ++ a)

theorem intercalate_cons_ne_empty (s l : String) (ls : List String) (h : l ≠ "") :
    String.intercalate s (l :: ls) ≠ "" := by
  intro he
  have h1 : l.length ≤ (String.intercalate s (l :: ls)).length :=
    intercalate_go_length s ls l
  rw [he] at h1
  apply h
  have h0 : l.length = 0 := by simpa using h1
  cases l with
  | mk d =>
    cases d with
    | nil => rfl
    | cons c cs => simp [String.length] at h0

/-- C4 (counterexample): for the §8 scenario the prompt does not end
with `User: What is X?` — the fixed instruction block follows it. -/
theorem buildPrompt_endsWith_cex :
    buildPromptWithHistory (.arr []) ("What is X?")
        (.arr [mkPassageRecord (("T"), ("C"), none)])
      = .ok ("Context:\n[Passage 1]\nTitle: T\nContent: C\n\nUser: What is X?"
          ++ chatInstructions) ∧
    strEndsWith ("Context:\n[Passage 1]\nTitle: T\nContent: C\n\nUser: What is X?"
        ++ chatInstructions) ("User: What is X?") = false :=
  ⟨rfl, by decide⟩

/-- Characterization of `buildPromptWithHistory` on array-shaped inputs. -/
theorem buildPrompt_arr (hs : List Json) (q : String) (ps : List Json) :
    buildPromptWithHistory (.arr hs) q (.arr ps)
      = match renderHistLines 1 hs with
        | .error e => .error e
        | .ok hls =>
          match renderPassageBlocks 1 ps with
          | .error e => .error e
          | .ok pbs =>
            .ok ((if String.intercalate ("\n") hls = "" then ("")
                  else ("Conversation so far:\n") ++ String.intercalate ("\n") hls ++ "\n\n") ++
              "Context:\n" ++ String.intercalate ("\n\n") pbs ++ "\n\nUser: " ++ q
                ++ chatInstructions) := rfl

set_option maxRecDepth 8192 in
/-- C4 (amended): `buildPromptWithHistory` is pure and deterministic; for
empty history the prompt carries no "Conversation so far" block; prior
turns render as 1-indexed `Q{i}/A{i}` lines in order; passages render as
numbered `[Passage {i}]` blocks with `Title:`/`Content:` lines in order;
and in the §8 scenario the prompt *contains* `User: What is X?` followed
by the instruction block and ends with `Answer:` (it does not end with
the user line). -/
theorem buildPrompt_rendering (hist : List (String × String)) (q : String)
    (ps : List (String × String × Option String)) :
    (hist = [] →
      buildPromptWithHistory (.arr (hist.map mkTurnRecord)) q (.arr (ps.map mkPassageRecord))
        = .ok ("Context:\n" ++ String.intercalate ("\n\n") (specPassageBlocks 1 ps)
            ++ "\n\nUser: " ++ q ++ chatInstructions)) ∧
    (hist ≠ [] →
      buildPromptWithHistory (.arr (hist.map mkTurnRecord)) q (.arr (ps.map mkPassageRecord))
        = .ok ("Conversation so far:\n" ++ String.intercalate ("\n") (specHistLines 1 hist)
            ++ "\n\n" ++ "Context:\n" ++ String.intercalate ("\n\n") (specPassageBlocks 1 ps)
            ++ "\n\nUser: " ++ q ++ chatInstructions)) ∧
    (strIncludes ("Context:\n[Passage 1]\nTitle: T\nContent: C\n\nUser: What is X?"
        ++ chatInstructions) ("User: What is X?") = true ∧
      strEndsWith ("Context:\n[Passage 1]\nTitle: T\nContent: C\n\nUser: What is X?"
        ++ chatInstructions) ("Answer:") = true ∧
      strIncludes ("Context:\n[Passage 1]\nTitle: T\nContent: C\n\nUser: What is X?"
        ++ chatInstructions) ("Conversation so far") = false ∧
      strIncludes ("Context:\n[Passage 1]\nTitle: T\nContent: C\n\nUser: What is X?"
        ++ chatInstructions) ("[Passage 1]\nTitle: T\nContent: C") = true) := by
  refine ⟨?_, ?_, by decide, by decide, by decide, by decide⟩
  · rintro rfl
    rw [show ((([] : List (String × String)).map mkTurnRecord)) = ([] : List Json) from rfl]
    rw [buildPrompt_arr [] q (ps.map mkPassageRecord)]
    rw [show renderHistLines 1 [] = Except.ok ([] : List String) from rfl]
    rw [renderPassageBlocks_recs ps 1]
    rfl
  · intro hne
    obtain ⟨qa, t, rfl⟩ : ∃ qa t, hist = qa :: t := by
      cases hist with
      | nil => exact absurd rfl hne
      | cons qa t => exact ⟨qa, t, rfl⟩
    obtain ⟨q0, a0⟩ := qa
    have hline : ("Q" ++ natToDecS 1 ++ ": " ++ q0 ++ "\nA" ++ natToDecS 1 ++ ": " ++ a0) ≠ "" := by
      intro he
      have hlen := congrArg String.length he
      simp only [String.length_append] at hlen
      rw [show ("Q" : String).length = 1 from rfl, show ("" : String).length = 0 from rfl] at hlen
      omega
    have hht : String.intercalate ("\n") (specHistLines 1 ((q0, a0) :: t)) ≠ "" := by
      rw [specHistLines]
      exact intercalate_cons_ne_empty _ _ _ hline
    rw [buildPrompt_arr (((q0, a0) :: t).map mkTurnRecord) q (ps.map mkPassageRecord)]
    rw [renderHistLines_turns ((q0, a0) :: t) 1, renderPassageBlocks_recs ps 1]
    simp only [if_neg hht]

/-- Witness for C4 (amended) at a concrete empty and non-empty history. -/
theorem buildPrompt_rendering_witness :
    buildPromptWithHistory (.arr []) ("What is X?") (.arr [mkPassageRecord (("T"), ("C"), none)])
      = .ok ("Context:\n"
          ++ String.intercalate ("\n\n") (specPassageBlocks 1 [(("T"), ("C"), none)])
          ++ "\n\nUser: " ++ ("What is X?") ++ chatInstructions) ∧
    buildPromptWithHistory (.arr [mkTurnRecord (("hi"), ("hello"))]) ("next") (.arr [])
      = .ok ("Conversation so far:\n"
          ++ String.intercalate ("\n") (specHistLines 1 [(("hi"), ("hello"))])
          ++ "\n\n" ++ "Context:\n"
          ++ String.intercalate ("\n\n")
              (specPassageBlocks 1 ([] : List (String × String × Option String)))
          ++ "\n\nUser: " ++ ("next") ++ chatInstructions) :=
  ⟨(buildPrompt_rendering [] ("What is X?") [(("T"), ("C"), none)]).1 rfl,
   (buildPrompt_rendering [(("hi"), ("hello"))] ("next") []).2.1 (by simp)⟩

/-- C10: when the generation call succeeds at the transport level but the
response carries no text candidate, `askModel` returns null instead of
failing, and the chat turn still appends `{query, answer: null}` to the
session and returns a null answer — the session is mutated although no
answer text was produced.  (Stated for a session holding a well-formed
history whose rendering does not throw, outside the cache namespaces.) -/
theorem chat_null_answer_appends (σ : Store) (sid q : String) (k : Nat) (pr : Providers)
    (hist : List Json) (ps : List Json)
    (h1 : strStartsWith sid ("embed:") = false)
    (h2 : strStartsWith sid ("retrieve:") = false)
    (hq : q ≠ "")
    (hsess : storeGet σ sid = some (Json.stringify (.arr hist)))
    (hro : (retrieveTopK σ q k pr.embedResp pr.searchResp).result = .ok (.arr ps))
    (hgen : pr.genResp = .ok none)
    (hh : ∃ ls, renderHistLines 1 hist = .ok ls)
    (hp : ∃ bs, renderPassageBlocks 1 ps = .ok bs) :
    (chatTurn σ sid q k pr).result = .ok ⟨none, .arr (hist ++ [mkTurn q none])⟩ ∧
    storeGet (chatTurn σ sid q k pr).store sid
      = some (Json.stringify (.arr (hist ++ [mkTurn q none]))) := by
  obtain ⟨ls, hls⟩ := hh
  obtain ⟨bs, hbs⟩ := hp
  have hgs : getSession σ sid = .ok (some (.arr hist)) := getSession_stringify σ sid _ hsess
  have hpre : storeGet (retrieveTopK σ q k pr.embedResp pr.searchResp).store sid
      = storeGet σ sid :=
    retrieveTopK_store_preserve σ q k pr.embedResp pr.searchResp sid
      (ne_of_startsWith_mismatch sid _ ("embed:") h1 (strStartsWith_embedKey q))
      (ne_of_startsWith_mismatch sid _ ("retrieve:") h2 (strStartsWith_retrieveKey q k))
  have happ := appendToSession_stringified (retrieveTopK σ q k pr.embedResp pr.searchResp).store
      sid hist (mkTurn q none) SESSION_TTL (by rw [hpre]; exact hsess)
  obtain ⟨prompt, hbp⟩ : ∃ p, buildPromptWithHistory (.arr hist) q (.arr ps) = .ok p := by
    rw [buildPrompt_arr hist q ps, hls, hbs]
    exact ⟨_, rfl⟩
  have hchat : chatTurn σ sid q k pr
      = ⟨storeSet (retrieveTopK σ q k pr.embedResp pr.searchResp).store sid
            (Json.stringify (.arr (hist ++ [mkTurn q none]))) SESSION_TTL,
         .ok ⟨none, .arr (hist ++ [mkTurn q none])⟩⟩ := by
    unfold chatTurn
    rw [if_neg hq]
    simp only [hgs, hro, jsTruthy, if_true, hbp, askModel, hgen, happ]
  rw [hchat]
  exact ⟨rfl, storeGet_set_self ..⟩

/-- Witness for C10: a concrete turn whose generation response has no
text candidate appends `{query: "hi", answer: null}`. -/
theorem chat_null_answer_appends_witness :
    (chatTurn [(("sess1" : String), ("[]" : String), 1800)] ("sess1") ("hi") 1
        ⟨.ok (some (.arr [.num 1])), .ok [⟨.obj [("title", .str ("T"))]⟩], .ok none⟩).result
      = .ok ⟨none, .arr [mkTurn ("hi") none]⟩ ∧
    storeGet (chatTurn [(("sess1" : String), ("[]" : String), 1800)] ("sess1") ("hi") 1
        ⟨.ok (some (.arr [.num 1])), .ok [⟨.obj [("title", .str ("T"))]⟩], .ok none⟩).store
        ("sess1")
      = some (Json.stringify (.arr [mkTurn ("hi") none])) :=
  chat_null_answer_appends [(("sess1" : String), ("[]" : String), 1800)] ("sess1") ("hi") 1
    ⟨.ok (some (.arr [.num 1])), .ok [⟨.obj [("title", .str ("T"))]⟩], .ok none⟩
    [] [.obj [("title", .str ("T"))]]
    (by decide) (by decide) (by decide) rfl rfl rfl ⟨[], rfl⟩ ⟨_, rfl⟩
